import Mathlib

/-!
# Verification of the dimaml model library

Shallow embedding of `src/lib/models/fixup_resnet.py` and
`src/lib/models/language_model.py` over exact rationals.

Conventions:
* Scalars are `ℚ` (the float computations of the source are modelled exactly
  over the rationals; `0.01` is `1/100`).
* A batched image tensor of logical shape (batch, channels, height, width) is a
  total function `ℕ → ℕ → ℕ → ℕ → ℚ`; the logical dimensions are passed to the
  operations that need them (convolution sums, padding bounds).
* External tensor-runtime activations that are transcendental (`sigmoid`,
  `tanh`, `log_softmax`) are parameters of the definitions that use them: the
  source calls out to `torch`, an external collaborator, for these.
* A normal-distribution draw `nn.init.normal_(w, mean, std)` is recorded
  symbolically as `TensorInit.normal mean stdSq` where `stdSq` is the *square*
  of the standard-deviation argument, so that the irrational
  `sqrt(2/fan) * L^(-1/2)` of the source is the exact rational
  `2 / (fan * L)` and every statement stays decidable.
-/

/-- Batched rank-4 tensor: indices are (batch, channel, row, column). -/
def T4 : Type := ℕ → ℕ → ℕ → ℕ → ℚ

/-- Convolution weight tensor: indices are (outChannel, inChannel, kRow, kCol). -/
def W4 : Type := ℕ → ℕ → ℕ → ℕ → ℚ

/-- `nn.LeakyReLU` with the default negative slope 0.01 of the source. -/
def leakyRelu (q : ℚ) : ℚ := if 0 ≤ q then q else q / 100

/-- Broadcast-add a scalar to every entry (the `x + bias.weight` idiom of the
source, where `bias` is a 1×1 `nn.Linear`). -/
def addScalar (x : T4) (q : ℚ) : T4 := fun b c i j => x b c i j + q

/-- Entrywise sum of two tensors (`out += identity`). -/
def addT (x y : T4) : T4 := fun b c i j => x b c i j + y b c i j

/-- Scale every entry by a scalar (`out * self.scale.weight`). -/
def smulT (q : ℚ) (x : T4) : T4 := fun b c i j => q * x b c i j

/-- Apply a scalar function entrywise (used for the activation). -/
def mapT (f : ℚ → ℚ) (x : T4) : T4 := fun b c i j => f (x b c i j)

/-- Zero-padded read of one (batch, channel) plane of logical size `H × W`:
index `(i, j)` of the padded plane. -/
def padAt (H W pad : ℕ) (x : ℕ → ℕ → ℚ) (i j : ℕ) : ℚ :=
  if i < pad ∨ j < pad ∨ H + pad ≤ i ∨ W + pad ≤ j then 0 else x (i - pad) (j - pad)

/-- 2-D cross-correlation of `nn.Conv2d` (no bias), batch-parallel: input has
`inC` channels and spatial size `H × W`; the kernel is `kH × kW`; `stride` and
symmetric zero `pad` as in the source. -/
def conv2d (w : W4) (inC kH kW stride pad H W : ℕ) (x : T4) : T4 :=
  fun b o i j =>
    ∑ c in Finset.range inC, ∑ di in Finset.range kH, ∑ dj in Finset.range kW,
      w o c di dj * padAt H W pad (fun i2 j2 => x b c i2 j2) (i * stride + di) (j * stride + dj)

/-- Output spatial size of a convolution: `(size + 2*pad - k) / stride + 1`. -/
def convOut (size pad k stride : ℕ) : ℕ := (size + 2 * pad - k) / stride + 1

/-- Value-level parameters of one `FixupBasicBlock`: two 3×3 convolution
weights, the optional 1×1 downsample weight, the four scalar biases and the
scalar scale (each a 1×1 `nn.Linear` weight in the source). -/
structure BlockVP where
  conv1W : W4
  conv2W : W4
  dsW : Option W4
  bias1a : ℚ
  bias1b : ℚ
  bias2a : ℚ
  bias2b : ℚ
  scale : ℚ

/-- `FixupBasicBlock.forward`, transcribed line by line from the source:
`identity = x`; `out = conv1(x + bias1a)`; `out = relu(out + bias1b)`;
`out = conv2(out + bias2a)`; `out = out * scale + bias2b`;
`identity = downsample(x + bias1a)` when a downsample exists;
`out += identity`; `out = relu(out)`. -/
def fixupBlockForward (p : BlockVP) (inC planes stride H W : ℕ) (x : T4) : T4 :=
  let identity := x
  let out1 := conv2d p.conv1W inC 3 3 stride 1 H W (addScalar x p.bias1a)
  let out2 := mapT leakyRelu (addScalar out1 p.bias1b)
  let H1 := convOut H 1 3 stride
  let W1 := convOut W 1 3 stride
  let out3 := conv2d p.conv2W planes 3 3 1 1 H1 W1 (addScalar out2 p.bias2a)
  let out4 := addScalar (smulT p.scale out3) p.bias2b
  let identity2 :=
    match p.dsW with
    | some w => conv2d w inC 1 1 stride 0 H W (addScalar x p.bias1a)
    | none => identity
  mapT leakyRelu (addT out4 identity2)

/-- The block forward as §4.1 of the spec words it, step by step:
1. `t = conv1(x + bias1a)`; 2. `t = activation(t + bias1b)` with a leaky
rectifier; 3. `t = conv2(t + bias2a)`; 4. `t = t * scale + bias2b`;
5. `identity = downsample(x + bias1a)` if downsampling exists, else `x`
unchanged; 6. `out = activation(t + identity)`. -/
def fixupBlockForwardSpec (p : BlockVP) (inC planes stride H W : ℕ) (x : T4) : T4 :=
  let t1 := conv2d p.conv1W inC 3 3 stride 1 H W (addScalar x p.bias1a)
  let t2 := mapT leakyRelu (addScalar t1 p.bias1b)
  let t3 := conv2d p.conv2W planes 3 3 1 1 (convOut H 1 3 stride) (convOut W 1 3 stride)
    (addScalar t2 p.bias2a)
  let t4 := addScalar (smulT p.scale t3) p.bias2b
  let identity :=
    match p.dsW with
    | some w => conv2d w inC 1 1 stride 0 H W (addScalar x p.bias1a)
    | none => x
  mapT leakyRelu (addT t4 identity)

/-- C2: for every input tensor of shape (batch, C_in, H, W), the
`FixupBasicBlock` forward pass computes exactly, in this order:
`t = conv1(x + bias1a)`; `t = activation(t + bias1b)` with the activation a
leaky rectifier; `t = conv2(t + bias2a)`; `t = t * scale + bias2b`;
`identity = downsample(x + bias1a)` when a downsample exists, else the
unchanged input; and returns `activation(t + identity)`.  The transcription of
the source is a pure function of its parameters and input, and it coincides
with the spec-ordered computation. -/
theorem fixupBlockForward_eq_spec (p : BlockVP) (inC planes stride H W : ℕ) (x : T4) :
    fixupBlockForward p inC planes stride H W x = fixupBlockForwardSpec p inC planes stride H W x := rfl

/-- `FixupBasicBlock.expansion` (the basic block has expansion 1). -/
def blockExpansion : ℕ := 1

/-- Structural description of one `FixupBasicBlock` as built by
`FixupResNet._make_layer`: its in/out channel counts, its stride, and whether
the 1×1 downsampling convolution is present. -/
structure BlockDesc where
  inplanes : ℕ
  planes : ℕ
  stride : ℕ
  hasDownsample : Bool
deriving DecidableEq, Repr

/-- `FixupResNet._make_layer(block, planes, blocks, stride)`: the first block
carries the stride and a downsample exactly when `stride != 1` or
`inplanes != planes * expansion`; the remaining `blocks - 1` blocks are
stride-1 with no downsample, at the updated `inplanes`. -/
def makeLayerDescs (inplanes planes blocks stride : ℕ) : List BlockDesc :=
  let hasDs : Bool := stride != 1 || inplanes != planes * blockExpansion
  ⟨inplanes, planes, stride, hasDs⟩ ::
    List.replicate (blocks - 1) ⟨planes * blockExpansion, planes, 1, false⟩

/-- The block sequence of `FixupResNet(block, [l1, l2, l3, l4])`: stage widths
64, 128, 256, 512; stage 1 has stride 1, stages 2–4 stride 2; `inplanes`
starts at 64 and is threaded through the stages. -/
def fixupDescs (l1 l2 l3 l4 : ℕ) : List BlockDesc :=
  makeLayerDescs 64 64 l1 1 ++ makeLayerDescs 64 128 l2 2 ++
    makeLayerDescs 128 256 l3 2 ++ makeLayerDescs 256 512 l4 2

/-- Symbolic record of one `nn.init` call: `normal mean stdSq` records
`nn.init.normal_(w, mean, std)` with `stdSq = std ^ 2` (kept squared so the
value is an exact rational); `const c` records `nn.init.constant_(w, c)`. -/
inductive TensorInit where
  | normal (mean stdSq : ℚ)
  | const (value : ℚ)
deriving DecidableEq, Repr

/-- Does `pat` occur at the head of the character list? -/
def headMatches : List Char → List Char → Bool
  | [], _ => true
  | _ :: _, [] => false
  | a :: pa, b :: pb => a == b && headMatches pa pb

/-- Does `pat` occur anywhere in the character list? -/
def containsSub (pat : List Char) : List Char → Bool
  | [] => headMatches pat []
  | b :: bs => headMatches pat (b :: bs) || containsSub pat bs

/-- The `'scale' in name` test of the init loop.  The loop tests the full
dotted module name (e.g. `layer1.0.scale`); since the path components other
than the leaf (`layer1`, `0`, …, `bias1`, `bias2`, `fc`) contain no letter
`s`, the substring test on the full name agrees with the test on the leaf
module name used here. -/
def nameHasScale (name : String) : Bool := containsSub "scale".data name.data

/-- The `nn.Linear` branch of the init loop: `constant_(weight, 0)` followed by
`constant_(weight, 1)` when `'scale'` occurs in the module name; the last write
wins. -/
def linearWeightInit (name : String) : TensorInit :=
  if nameHasScale name then TensorInit.const 1 else TensorInit.const 0

/-- Shape of a convolution weight tensor `(outC, inC, kH, kW)`. -/
structure ConvShape where
  outC : ℕ
  inC : ℕ
  kH : ℕ
  kW : ℕ
deriving DecidableEq, Repr

/-- `weight.shape[0] * np.prod(weight.shape[2:])` of the init loop. -/
def fanTerm (s : ConvShape) : ℕ := s.outC * (s.kH * s.kW)

/-- `conv1 = conv3x3(inplanes, planes, stride)` has weight shape
`(planes, inplanes, 3, 3)`. -/
def conv1ShapeOf (d : BlockDesc) : ConvShape := ⟨d.planes, d.inplanes, 3, 3⟩

/-- `downsample = conv1x1(inplanes, planes * expansion, stride)` has weight
shape `(planes * expansion, inplanes, 1, 1)`. -/
def dsShapeOf (d : BlockDesc) : ConvShape := ⟨d.planes * blockExpansion, d.inplanes, 1, 1⟩

/-- Initialization of the parameters of one `FixupBasicBlock`, as performed by
the loop in `FixupResNet.__init__` for a network with `L = self.num_layers`
total blocks: `conv1` is drawn normal with std `sqrt(2 / fanTerm(conv1)) *
L^(-0.5)` (recorded squared: `2 / (fanTerm * L)`); `conv2` is set to 0; a
present downsample is drawn normal with std `sqrt(2 / fanTerm(downsample))`
(recorded squared: `2 / fanTerm`); the 1×1 `nn.Linear` children are set by
the `nn.Linear` branch keyed on their names. -/
structure BlockInitRec where
  conv1 : TensorInit
  conv2 : TensorInit
  downsample : Option TensorInit
  bias1a : TensorInit
  bias1b : TensorInit
  bias2a : TensorInit
  bias2b : TensorInit
  scale : TensorInit
deriving DecidableEq, Repr

/-- The init loop's effect on one block (see `BlockInitRec`). -/
def blockInitOf (L : ℕ) (d : BlockDesc) : BlockInitRec where
  conv1 := TensorInit.normal 0 (2 / ((fanTerm (conv1ShapeOf d) : ℚ) * (L : ℚ)))
  conv2 := TensorInit.const 0
  downsample :=
    if d.hasDownsample then some (TensorInit.normal 0 (2 / (fanTerm (dsShapeOf d) : ℚ)))
    else none
  bias1a := linearWeightInit "bias1a"
  bias1b := linearWeightInit "bias1b"
  bias2a := linearWeightInit "bias2a"
  bias2b := linearWeightInit "bias2b"
  scale := linearWeightInit "scale"

/-- Initialization state of a whole `FixupResNet` right after construction:
the stem bias `bias1`, the pre-classifier bias `bias2`, the classifier
weight/bias (`fc` is an `nn.Linear`, so the same init branch zeroes it), and
each block's record paired with its structural description. -/
structure NetInit where
  bias1 : TensorInit
  bias2 : TensorInit
  fcWeight : TensorInit
  fcBias : TensorInit
  blocks : List (BlockDesc × BlockInitRec)

/-- The whole init pass of `FixupResNet.__init__(block, [l1,l2,l3,l4])`, with
`L = num_layers = l1+l2+l3+l4`. -/
def fixupResNetInit (l1 l2 l3 l4 : ℕ) : NetInit :=
  let L := l1 + l2 + l3 + l4
  { bias1 := linearWeightInit "bias1"
    bias2 := linearWeightInit "bias2"
    fcWeight := linearWeightInit "fc"
    fcBias := TensorInit.const 0
    blocks := (fixupDescs l1 l2 l3 l4).map (fun d => (d, blockInitOf L d)) }

/-- C1: immediately after construction of a `FixupResNet` with total block
count `L = l1+l2+l3+l4`, every `FixupBasicBlock` has `conv1` drawn from a
zero-mean normal with standard deviation `sqrt(2 / (out_channels*k*k)) *
L^(-0.5)` computed from `conv1`'s own output-channel and kernel dimensions
(recorded as the squared value `2 / (out_channels*k*k*L)`), `conv2` set to
exactly zero, and, when the downsampling convolution exists, its weight drawn
with standard deviation `sqrt(2 / fan_term)` from the downsample layer's own
output/kernel dimensions with no `L` scaling (recorded squared as
`2 / (out_channels*1*1)`). -/
theorem fixup_block_init_C1 (l1 l2 l3 l4 : ℕ)
    (k1 : 1 ≤ l1) (k2 : 1 ≤ l2) (k3 : 1 ≤ l3) (k4 : 1 ≤ l4)
    (d : BlockDesc) (bi : BlockInitRec)
    (hmem : (d, bi) ∈ (fixupResNetInit l1 l2 l3 l4).blocks) :
    bi.conv1 = TensorInit.normal 0 (2 / ((d.planes * 3 * 3 * (l1 + l2 + l3 + l4) : ℕ) : ℚ)) ∧
    bi.conv2 = TensorInit.const 0 ∧
    bi.downsample = (if d.hasDownsample then
        some (TensorInit.normal 0 (2 / ((d.planes * 1 * 1 : ℕ) : ℚ))) else none) := by
  rw [show (fixupResNetInit l1 l2 l3 l4).blocks =
      (fixupDescs l1 l2 l3 l4).map (fun d => (d, blockInitOf (l1 + l2 + l3 + l4) d)) from rfl,
    List.mem_map] at hmem
  obtain ⟨a, ha, heq⟩ := hmem
  injection heq with hd hb
  subst hd; subst hb
  refine ⟨?_, rfl, rfl⟩
  simp only [blockInitOf, fanTerm, conv1ShapeOf, TensorInit.normal.injEq, true_and]
  congr 1
  push_cast
  ring

/-- Witness for C1 at the FixupResNet18 layer counts `[2,2,2,2]` (total block
count 8), evaluated at the first block of stage 1. -/
theorem fixup_block_init_C1_w :
    (blockInitOf 8 ⟨64, 64, 1, false⟩).conv1 =
        TensorInit.normal 0 (2 / ((64 * 3 * 3 * (2 + 2 + 2 + 2) : ℕ) : ℚ)) ∧
    (blockInitOf 8 ⟨64, 64, 1, false⟩).conv2 = TensorInit.const 0 ∧
    (blockInitOf 8 ⟨64, 64, 1, false⟩).downsample =
      (if (⟨64, 64, 1, false⟩ : BlockDesc).hasDownsample then
        some (TensorInit.normal 0 (2 / ((64 * 1 * 1 : ℕ) : ℚ))) else none) :=
  fixup_block_init_C1 2 2 2 2 (by decide) (by decide) (by decide) (by decide)
    ⟨64, 64, 1, false⟩ (blockInitOf 8 ⟨64, 64, 1, false⟩)
    (by simp [fixupResNetInit, fixupDescs, makeLayerDescs, blockExpansion])

/-- C7: immediately after construction of a `FixupResNet`, every block's
`scale` parameter equals exactly one, every block bias parameter
(`bias1a`, `bias1b`, `bias2a`, `bias2b`) equals exactly zero, and the
network-level stem bias (`bias1`) and pre-classifier bias (`bias2`) equal
exactly zero. -/
theorem fixup_bias_scale_C7 (l1 l2 l3 l4 : ℕ) (d : BlockDesc) (bi : BlockInitRec)
    (hmem : (d, bi) ∈ (fixupResNetInit l1 l2 l3 l4).blocks) :
    bi.scale = TensorInit.const 1 ∧
    bi.bias1a = TensorInit.const 0 ∧ bi.bias1b = TensorInit.const 0 ∧
    bi.bias2a = TensorInit.const 0 ∧ bi.bias2b = TensorInit.const 0 ∧
    (fixupResNetInit l1 l2 l3 l4).bias1 = TensorInit.const 0 ∧
    (fixupResNetInit l1 l2 l3 l4).bias2 = TensorInit.const 0 := by
  rw [show (fixupResNetInit l1 l2 l3 l4).blocks =
      (fixupDescs l1 l2 l3 l4).map (fun d => (d, blockInitOf (l1 + l2 + l3 + l4) d)) from rfl,
    List.mem_map] at hmem
  obtain ⟨a, ha, heq⟩ := hmem
  injection heq with hd hb
  subst hd; subst hb
  exact ⟨rfl, rfl, rfl, rfl, rfl, rfl, rfl⟩

/-- Witness for C7 at the FixupResNet18 layer counts `[2,2,2,2]`, evaluated at
the first block of stage 2 (the one carrying a downsample). -/
theorem fixup_bias_scale_C7_w :
    (blockInitOf 8 ⟨64, 128, 2, true⟩).scale = TensorInit.const 1 ∧
    (blockInitOf 8 ⟨64, 128, 2, true⟩).bias1a = TensorInit.const 0 ∧
    (blockInitOf 8 ⟨64, 128, 2, true⟩).bias1b = TensorInit.const 0 ∧
    (blockInitOf 8 ⟨64, 128, 2, true⟩).bias2a = TensorInit.const 0 ∧
    (blockInitOf 8 ⟨64, 128, 2, true⟩).bias2b = TensorInit.const 0 ∧
    (fixupResNetInit 2 2 2 2).bias1 = TensorInit.const 0 ∧
    (fixupResNetInit 2 2 2 2).bias2 = TensorInit.const 0 :=
  fixup_bias_scale_C7 2 2 2 2 ⟨64, 128, 2, true⟩ (blockInitOf 8 ⟨64, 128, 2, true⟩)
    (by simp [fixupResNetInit, fixupDescs, makeLayerDescs, blockExpansion])

/-- Shape semantics of one `FixupBasicBlock` on a (channels, height, width)
input shape: the in-channel count must match; spatial sizes must admit the
3×3/pad-1 convolutions (size at least 1); the residual addition requires the
main path (conv1 at the block stride, then conv2 at stride 1) and the identity
path (the 1×1 stride-`stride` downsample when present, else the input itself)
to produce the same shape. -/
def blockShape (d : BlockDesc) (s : ℕ × ℕ × ℕ) : Option (ℕ × ℕ × ℕ) :=
  match s with
  | (c, h, w) =>
    if c ≠ d.inplanes then none
    else if h < 1 ∨ w < 1 then none
    else
      let h2 := convOut (convOut h 1 3 d.stride) 1 3 1
      let w2 := convOut (convOut w 1 3 d.stride) 1 3 1
      let main : ℕ × ℕ × ℕ := (d.planes, h2, w2)
      let idt : ℕ × ℕ × ℕ :=
        if d.hasDownsample then
          (d.planes * blockExpansion, convOut h 0 1 d.stride, convOut w 0 1 d.stride)
        else (c, h, w)
      if main = idt then some main else none

/-- Shape semantics of `nn.Sequential` over a list of blocks. -/
def stagesShape : List BlockDesc → ℕ × ℕ × ℕ → Option (ℕ × ℕ × ℕ)
  | [], s => some s
  | d :: ds, s =>
    match blockShape d s with
    | none => none
    | some s2 => stagesShape ds s2

/-- Shape semantics of `FixupResNet.forward` on an input of shape
(B, C, H, W): the 3×3/stride-1/pad-1 stem (requires `C = 3`), the four stages,
adaptive average pooling to spatial size 1×1, flattening, and the final
`nn.Linear(512 * expansion, num_classes)` (requires 512·1·1 input features). -/
def fixupResNetShape (l1 l2 l3 l4 numClasses B C H W : ℕ) : Option (ℕ × ℕ) :=
  if C ≠ 3 then none
  else if H < 1 ∨ W < 1 then none
  else
    match stagesShape (fixupDescs l1 l2 l3 l4) (64, convOut H 1 3 1, convOut W 1 3 1) with
    | none => none
    | some (c, _, _) =>
      if c * 1 * 1 = 512 * blockExpansion then some (B, numClasses) else none

/-- `FixupResNet18 = FixupResNet(FixupBasicBlock, [2, 2, 2, 2])`. -/
def fixupResNet18Shape (numClasses B C H W : ℕ) : Option (ℕ × ℕ) :=
  fixupResNetShape 2 2 2 2 numClasses B C H W

/-- A stride-1 stage-interior block (in-channels = out-channels, no
downsample) maps shape (p, h, w) to itself. -/
theorem blockShape_stride_one (p h w : ℕ) (hh : 1 ≤ h) (hw : 1 ≤ w) :
    blockShape ⟨p, p, 1, false⟩ (p, h, w) = some (p, h, w) := by
  have e1 : convOut h 1 3 1 = h := by simp [convOut, Nat.div_one]; omega
  have e2 : convOut w 1 3 1 = w := by simp [convOut, Nat.div_one]; omega
  simp [blockShape, e1, e2, Nat.not_lt.mpr hh, Nat.not_lt.mpr hw]

/-- A stride-2 stage-entry block with downsample maps (c, h, w) to
(p, (h-1)/2+1, (w-1)/2+1); the downsample path produces the same spatial
shape as the main path, so the residual addition is well-shaped. -/
theorem blockShape_stride_two (c p h w : ℕ) (hh : 1 ≤ h) (hw : 1 ≤ w) :
    blockShape ⟨c, p, 2, true⟩ (c, h, w) =
      some (p, (h - 1) / 2 + 1, (w - 1) / 2 + 1) := by
  have m1 : convOut h 1 3 2 = (h - 1) / 2 + 1 := by simp [convOut]
  have m2 : convOut w 1 3 2 = (w - 1) / 2 + 1 := by simp [convOut]
  have i1 : convOut h 0 1 2 = (h - 1) / 2 + 1 := by simp [convOut]
  have i2 : convOut w 0 1 2 = (w - 1) / 2 + 1 := by simp [convOut]
  have p1 : convOut ((h - 1) / 2 + 1) 1 3 1 = (h - 1) / 2 + 1 := by
    simp [convOut, Nat.div_one]
  have p2 : convOut ((w - 1) / 2 + 1) 1 3 1 = (w - 1) / 2 + 1 := by
    simp [convOut, Nat.div_one]
  simp [blockShape, m1, m2, i1, i2, p1, p2, blockExpansion,
    Nat.not_lt.mpr hh, Nat.not_lt.mpr hw]

/-- C9: for every batch size `B`, every class count, and every spatial size
`H × W` admissible for the convolutions (at least 1 in each dimension; every
stride-2 reduction then stays admissible), a FixupResNet18 forward pass on an
input of shape (B, 3, H, W) has output shape exactly (B, num_classes). -/
theorem resnet18_shape_C9 (B numClasses H W : ℕ) (hH : 1 ≤ H) (hW : 1 ≤ W) :
    fixupResNet18Shape numClasses B 3 H W = some (B, numClasses) := by
  have e1 : convOut H 1 3 1 = H := by simp [convOut, Nat.div_one]; omega
  have e2 : convOut W 1 3 1 = W := by simp [convOut, Nat.div_one]; omega
  have pos : ∀ a : ℕ, 1 ≤ (a - 1) / 2 + 1 := fun a => Nat.le_add_left 1 _
  have descs : fixupDescs 2 2 2 2 =
      [⟨64, 64, 1, false⟩, ⟨64, 64, 1, false⟩, ⟨64, 128, 2, true⟩, ⟨128, 128, 1, false⟩,
        ⟨128, 256, 2, true⟩, ⟨256, 256, 1, false⟩, ⟨256, 512, 2, true⟩,
        ⟨512, 512, 1, false⟩] := rfl
  have b1 := blockShape_stride_one 64 H W hH hW
  have b3 := blockShape_stride_two 64 128 H W hH hW
  have b4 := blockShape_stride_one 128 ((H - 1) / 2 + 1) ((W - 1) / 2 + 1) (pos H) (pos W)
  have b5 := blockShape_stride_two 128 256 ((H - 1) / 2 + 1) ((W - 1) / 2 + 1) (pos H) (pos W)
  have b6 := blockShape_stride_one 256 (((H - 1) / 2 + 1 - 1) / 2 + 1)
    (((W - 1) / 2 + 1 - 1) / 2 + 1) (pos _) (pos _)
  have b7 := blockShape_stride_two 256 512 (((H - 1) / 2 + 1 - 1) / 2 + 1)
    (((W - 1) / 2 + 1 - 1) / 2 + 1) (pos _) (pos _)
  have b8 := blockShape_stride_one 512 ((((H - 1) / 2 + 1 - 1) / 2 + 1 - 1) / 2 + 1)
    ((((W - 1) / 2 + 1 - 1) / 2 + 1 - 1) / 2 + 1) (pos _) (pos _)
  simp only [fixupResNet18Shape, fixupResNetShape, descs, e1, e2, blockExpansion]
  norm_num
  simp only [stagesShape, b1, b3, b4, b5, b6, b7, b8]
  exact ⟨⟨by omega, by omega⟩, by simp⟩

/-- Witness for C9: a batch of 1 CIFAR-sized input (3 × 32 × 32) with 10
classes. -/
theorem resnet18_shape_C9_w : fixupResNet18Shape 10 1 3 32 32 = some (1, 10) :=
  resnet18_shape_C9 1 10 32 32 (by decide) (by decide)

/-- `nn.AdaptiveAvgPool2d((1,1))`: mean over the `H × W` spatial positions;
the single output position is read at spatial index (0, 0). -/
def adaptiveAvgPool (H W : ℕ) (x : T4) : T4 :=
  fun b c _ _ => (∑ i in Finset.range H, ∑ j in Finset.range W, x b c i j) / ((H : ℚ) * (W : ℚ))

/-- Value-level parameters of a whole `FixupResNet`: stem convolution weight,
the two network-level scalar biases, the classifier weight and bias, and each
block's parameters next to its structural description. -/
structure NetVP where
  stemW : W4
  bias1 : ℚ
  bias2 : ℚ
  fcW : ℕ → ℕ → ℚ
  fcB : ℕ → ℚ
  blocks : List (BlockDesc × BlockVP)

/-- `nn.Sequential` of the four stages' blocks, threading the spatial size
(each block's convolutions change it according to the block's stride). -/
def blocksForward : List (BlockDesc × BlockVP) → ℕ → ℕ → T4 → T4
  | [], _, _, x => x
  | (d, p) :: rest, H, W, x =>
    blocksForward rest (convOut (convOut H 1 3 d.stride) 1 3 1)
      (convOut (convOut W 1 3 d.stride) 1 3 1)
      (fixupBlockForward p d.inplanes d.planes d.stride H W x)

/-- Spatial size after a list of blocks. -/
def blocksDims : List BlockDesc → ℕ × ℕ → ℕ × ℕ
  | [], s => s
  | d :: rest, (h, w) =>
    blocksDims rest (convOut (convOut h 1 3 d.stride) 1 3 1, convOut (convOut w 1 3 d.stride) 1 3 1)

/-- `FixupResNet.forward`: stem 3×3/stride-1/pad-1 convolution on the 3-channel
input, add `bias1`, leaky rectifier, the four stages, adaptive average
pooling, flattening (spatial size is 1×1, so feature `f` is channel `f`),
add `bias2`, and the `nn.Linear(512 * expansion, num_classes)` classifier. -/
def fixupResNetForward (net : NetVP) (H W : ℕ) (x : T4) : ℕ → ℕ → ℚ :=
  let x1 := conv2d net.stemW 3 3 3 1 1 H W x
  let x2 := mapT leakyRelu (addScalar x1 net.bias1)
  let hs := convOut H 1 3 1
  let ws := convOut W 1 3 1
  let x3 := blocksForward net.blocks hs ws x2
  let dims := blocksDims (net.blocks.map Prod.fst) (hs, ws)
  let pooled := adaptiveAvgPool dims.1 dims.2 x3
  let flat := fun b f => pooled b f 0 0
  fun b n =>
    (∑ f in Finset.range (512 * blockExpansion), net.fcW n f * (flat b f + net.bias2)) + net.fcB n

/-- Value-level parameters of a `FixupResNet` right after construction,
realizing the init pass `fixupResNetInit`: the stem convolution is not
matched by any branch of the init loop, so its weight stays at the framework
default (an arbitrary `stemW`); each block's `conv1` and downsample weights
are normal draws (arbitrary `conv1Ws i`, `dsWs i` for block index `i`);
`conv2` weights are zero; all 1×1 biases are zero and scales one
(`nameHasScale` is false for every bias name and true for `scale`); the
classifier `fc` is an `nn.Linear` whose name lacks `scale`, so its weight and
bias are zero. -/
def fixupResNetInitVP (l1 l2 l3 l4 : ℕ) (stemW : W4) (conv1Ws dsWs : ℕ → W4) : NetVP where
  stemW := stemW
  bias1 := 0
  bias2 := 0
  fcW := fun _ _ => 0
  fcB := fun _ => 0
  blocks := (fixupDescs l1 l2 l3 l4).enum.map fun di =>
    (di.2,
      { conv1W := conv1Ws di.1
        conv2W := fun _ _ _ _ => 0
        dsW := if di.2.hasDownsample then some (dsWs di.1) else none
        bias1a := 0
        bias1b := 0
        bias2a := 0
        bias2b := 0
        scale := 1 })

/-- C10: immediately after construction of a `FixupResNet`, the classifier
head's weight matrix and bias vector are exactly zero (the `nn.Linear` branch
of the init loop matches `fc` as well), and consequently a forward pass on any
input — for any draw of the stem and block convolution weights — returns the
all-zero logits tensor. -/
theorem fixup_zero_logits_C10 (l1 l2 l3 l4 : ℕ) (stemW : W4) (conv1Ws dsWs : ℕ → W4)
    (H W : ℕ) (x : T4) (b n : ℕ) :
    (fixupResNetInit l1 l2 l3 l4).fcWeight = TensorInit.const 0 ∧
    (fixupResNetInit l1 l2 l3 l4).fcBias = TensorInit.const 0 ∧
    fixupResNetForward (fixupResNetInitVP l1 l2 l3 l4 stemW conv1Ws dsWs) H W x b n = 0 := by
  refine ⟨rfl, rfl, ?_⟩
  simp [fixupResNetForward, fixupResNetInitVP]

/-- Unbatched feature vector (`ℕ`-indexed, dimension tracked separately). -/
def Vec : Type := ℕ → ℚ

/-- Form of one mogrifier transform module of `MogrifierLSTMCell.__init__`:
`full inDim outDim bias` is a single `nn.Linear(inDim, outDim)` (`bias` is its
bias flag, `True` by default); `factored inDim inner outDim` is
`nn.Sequential(nn.Linear(inDim, inner, bias=False), nn.Linear(inner, outDim,
bias=True))`. -/
inductive MogTransform where
  | full (inDim outDim : ℕ) (bias : Bool)
  | factored (inDim inner outDim : ℕ)
deriving DecidableEq, Repr

/-- Is the transform in the factored (low-rank) form? -/
def isFactored : MogTransform → Bool
  | MogTransform.full _ _ _ => false
  | MogTransform.factored _ _ _ => true

/-- `MogrifierLSTMCell.__init__(input_size, hidden_size, mogrify_steps, k=90)`:
when `input_size < k or hidden_size < k` every transform is a single
`nn.Linear` (the source's `# Full rank` branch); otherwise every transform is
the two-stage factored form of inner dimension `k` (the `# low-rank` branch).
The first list entry maps hidden to input size (`q`); entries for
`i in range(1, mogrify_steps)` map hidden to input when `i % 2 == 0` (`q`) and
input to hidden otherwise (`r`). -/
def mogrifierList (inputSize hiddenSize mogrifySteps k : ℕ) : List MogTransform :=
  if inputSize < k ∨ hiddenSize < k then
    MogTransform.full hiddenSize inputSize true ::
      (List.range' 1 (mogrifySteps - 1)).map (fun i =>
        if i % 2 == 0 then MogTransform.full hiddenSize inputSize true
        else MogTransform.full inputSize hiddenSize true)
  else
    MogTransform.factored hiddenSize k inputSize ::
      (List.range' 1 (mogrifySteps - 1)).map (fun i =>
        if i % 2 == 0 then MogTransform.factored hiddenSize k inputSize
        else MogTransform.factored inputSize k hiddenSize)

/-- C3 as the claim words it: every transform is factored exactly when both
the input size and the hidden size are below the threshold `k` (and otherwise
is a single full-rank linear map). -/
abbrev mogrifierClaimC3 (inputSize hiddenSize mogrifySteps k : ℕ) : Prop :=
  ∀ t ∈ mogrifierList inputSize hiddenSize mogrifySteps k,
    (isFactored t = true ↔ (inputSize < k ∧ hiddenSize < k))

/-- Counterexample to C3 as stated: with `input_size = hidden_size = 1`, both
sizes are below the default threshold `k = 90`, yet the constructed transform
is the single full-rank `nn.Linear(1, 1)`, not the factored form — the
source factors exactly in the opposite case (both sizes at least `k`). -/
theorem mogrifier_C3_cex : ¬ mogrifierClaimC3 1 1 1 90 := by decide

/-- C3 amended: each `transform_i` alternates direction with round parity
(hidden-size→input-size at even `i`, input-size→hidden-size at odd `i`), and
is a single full-rank `nn.Linear` — except that when both the input size and
the hidden size are at least the threshold `k`, it is instead factored into
two linear maps of inner dimension `k`. -/
theorem mogrifier_C3_amended (inputSize hiddenSize mogrifySteps k i : ℕ) (t : MogTransform)
    (ht : (mogrifierList inputSize hiddenSize mogrifySteps k).get? i = some t) :
    t = if inputSize < k ∨ hiddenSize < k then
          (if i % 2 == 0 then MogTransform.full hiddenSize inputSize true
           else MogTransform.full inputSize hiddenSize true)
        else
          (if i % 2 == 0 then MogTransform.factored hiddenSize k inputSize
           else MogTransform.factored inputSize k hiddenSize) := by
  by_cases hk : inputSize < k ∨ hiddenSize < k
  · rw [show mogrifierList inputSize hiddenSize mogrifySteps k =
        MogTransform.full hiddenSize inputSize true ::
          (List.range' 1 (mogrifySteps - 1)).map (fun i =>
            if i % 2 == 0 then MogTransform.full hiddenSize inputSize true
            else MogTransform.full inputSize hiddenSize true) from by
      rw [mogrifierList, if_pos hk]] at ht
    rw [if_pos hk]
    match i, ht with
    | 0, ht => simp at ht; subst ht; rfl
    | j + 1, ht =>
      rw [List.get?_cons_succ, List.get?_map] at ht
      have hj : j < mogrifySteps - 1 := by
        by_contra hge
        rw [List.get?_eq_none.mpr (by simpa using Nat.le_of_not_lt hge)] at ht
        simp at ht
      rw [List.get?_range' 1 1 hj] at ht
      simp only [Option.map_some', Option.some.injEq] at ht
      subst ht
      have he : 1 + 1 * j = j + 1 := by omega
      rw [he]
  · rw [show mogrifierList inputSize hiddenSize mogrifySteps k =
        MogTransform.factored hiddenSize k inputSize ::
          (List.range' 1 (mogrifySteps - 1)).map (fun i =>
            if i % 2 == 0 then MogTransform.factored hiddenSize k inputSize
            else MogTransform.factored inputSize k hiddenSize) from by
      rw [mogrifierList, if_neg hk]] at ht
    rw [if_neg hk]
    match i, ht with
    | 0, ht => simp at ht; subst ht; rfl
    | j + 1, ht =>
      rw [List.get?_cons_succ, List.get?_map] at ht
      have hj : j < mogrifySteps - 1 := by
        by_contra hge
        rw [List.get?_eq_none.mpr (by simpa using Nat.le_of_not_lt hge)] at ht
        simp at ht
      rw [List.get?_range' 1 1 hj] at ht
      simp only [Option.map_some', Option.some.injEq] at ht
      subst ht
      have he : 1 + 1 * j = j + 1 := by omega
      rw [he]

/-- Witness for the amended C3: a low-rank cell (`input_size = hidden_size =
100 ≥ 90`) with 2 mogrify steps, at index 1 (an `r` transform mapping input
size to hidden size through inner dimension 90). -/
theorem mogrifier_C3_amended_w :
    MogTransform.factored 100 90 100 =
      if (100 : ℕ) < 90 ∨ (100 : ℕ) < 90 then
        (if (1 : ℕ) % 2 == 0 then MogTransform.full 100 100 true
         else MogTransform.full 100 100 true)
      else
        (if (1 : ℕ) % 2 == 0 then MogTransform.factored 100 90 100
         else MogTransform.factored 100 90 100) :=
  mogrifier_C3_amended 100 100 2 90 1 (MogTransform.factored 100 90 100) (by decide)

/-- One gating update `2 * sigmoid(transform(v)) ⊙ w`, elementwise; `sig` is
the external runtime's `torch.sigmoid`, applied entrywise to the already
transformed vector `t`. -/
def gateMul (sig : ℚ → ℚ) (t w : Vec) : Vec := fun j => (2 * sig (t j)) * w j

/-- `MogrifierLSTMCell.mogrify(x, h)`: for `i in range(mogrify_steps)`, when
`(i + 1) % 2 == 0` update `h = (2 * sigmoid(mogrifier_list[i](x))) * h`, else
update `x = (2 * sigmoid(mogrifier_list[i](h))) * x`.  The transform family
`ts` gives the application of `mogrifier_list[i]` (an external `nn.Linear` or
`nn.Sequential` forward). -/
def mogrify (sig : ℚ → ℚ) (ts : ℕ → Vec → Vec) (mogrifySteps : ℕ) (x h : Vec) : Vec × Vec :=
  (List.range mogrifySteps).foldl
    (fun p i =>
      if (i + 1) % 2 == 0 then (p.1, gateMul sig (ts i p.1) p.2)
      else (gateMul sig (ts i p.2) p.1, p.2))
    (x, h)

/-- The mogrification loop as §4.5 of the spec words it, as a round-indexed
recursion: `n` remaining rounds starting at round index `i`; at odd rounds
(`(i+1) % 2 == 0`) gate `h` by the transformed `x`, at even rounds gate `x`
by the transformed `h`. -/
def mogrifySpecGo (sig : ℚ → ℚ) (ts : ℕ → Vec → Vec) : ℕ → ℕ → Vec → Vec → Vec × Vec
  | _, 0, x, h => (x, h)
  | i, n + 1, x, h =>
    if (i + 1) % 2 == 0 then mogrifySpecGo sig ts (i + 1) n x (gateMul sig (ts i x) h)
    else mogrifySpecGo sig ts (i + 1) n (gateMul sig (ts i h) x) h

/-- Spec-side mogrification: exactly `mogrifySteps` rounds, indexed from 0. -/
def mogrifySpecRounds (sig : ℚ → ℚ) (ts : ℕ → Vec → Vec) (mogrifySteps : ℕ) (x h : Vec) :
    Vec × Vec :=
  mogrifySpecGo sig ts 0 mogrifySteps x h

/-- `MogrifierLSTMCell.forward(x, (ht, ct))`: mogrify `(x, ht)`, then run the
wrapped `nn.LSTMCell` step (an external-module parameter here) on the
mogrified input and hidden state together with the untouched cell state. -/
def mogLSTMForward (lstmStep : Vec → Vec × Vec → Vec × Vec) (sig : ℚ → ℚ)
    (ts : ℕ → Vec → Vec) (mogrifySteps : ℕ) (x : Vec) (st : Vec × Vec) : Vec × Vec :=
  let ht := st.1
  let ct := st.2
  let p := mogrify sig ts mogrifySteps x ht
  lstmStep p.1 (p.2, ct)

/-- The source's fold over `range(mogrify_steps)`, started at round `i` over
the indices `i, i+1, …, i+n-1`, agrees with the spec-side round recursion. -/
theorem mogrify_foldl_go (sig : ℚ → ℚ) (ts : ℕ → Vec → Vec) (n : ℕ) :
    ∀ (i : ℕ) (x h : Vec),
      (List.range' i n).foldl
        (fun p j =>
          if (j + 1) % 2 == 0 then (p.1, gateMul sig (ts j p.1) p.2)
          else (gateMul sig (ts j p.2) p.1, p.2))
        (x, h) = mogrifySpecGo sig ts i n x h := by
  induction n with
  | zero => intro i x h; rfl
  | succ n ih =>
    intro i x h
    rw [List.range'_succ, List.foldl_cons, mogrifySpecGo]
    by_cases hp : (i + 1) % 2 == 0
    · rw [if_pos hp]
      simp only [hp, if_true]
      exact ih (i + 1) x (gateMul sig (ts i x) h)
    · rw [if_neg hp]
      simp only [hp, if_false]
      exact ih (i + 1) (gateMul sig (ts i h) x) h

/-- C4: for every input `x`, hidden state `h` and step count, the mogrifier
gating loop runs exactly `mogrify_steps` rounds indexed from 0; at each round
with `(i+1) % 2 == 0` it updates `h := 2·sigmoid(transform_i(x)) ⊙ h` and at
each other round it updates `x := 2·sigmoid(transform_i(h)) ⊙ x` (so round 0
gates `x` using `h`); and the cell state `c` is passed to the subsequent LSTM
step unchanged by mogrification. -/
theorem mogrify_rounds_C4 (lstmStep : Vec → Vec × Vec → Vec × Vec) (sig : ℚ → ℚ)
    (ts : ℕ → Vec → Vec) (mogrifySteps : ℕ) (x h c : Vec) :
    mogrify sig ts mogrifySteps x h = mogrifySpecRounds sig ts mogrifySteps x h ∧
    mogLSTMForward lstmStep sig ts mogrifySteps x (h, c) =
      lstmStep (mogrify sig ts mogrifySteps x h).1
        ((mogrify sig ts mogrifySteps x h).2, c) := by
  constructor
  · rw [mogrify, mogrifySpecRounds, List.range_eq_range']
    exact mogrify_foldl_go sig ts mogrifySteps 0 x h
  · rfl

/-- C8: a `MogrifierLSTMCell` constructed with `mogrify_steps = 0` returns,
for every input and state pair, exactly what the underlying plain LSTM step
returns on the same arguments: the gating loop body never runs. -/
theorem mogrify_zero_steps_C8 (lstmStep : Vec → Vec × Vec → Vec × Vec) (sig : ℚ → ℚ)
    (ts : ℕ → Vec → Vec) (x h c : Vec) :
    mogLSTMForward lstmStep sig ts 0 x (h, c) = lstmStep x (h, c) := rfl

/-- Batched activation matrix: indices are (batch, feature). -/
def Mat : Type := ℕ → ℕ → ℚ

/-- `torch.zeros(rows, cols)` — the dimension arguments record the logical
shape. -/
def zerosM (rows cols : ℕ) : Mat := fun _ _ => 0

/-- Parameters of one `nn.LSTMCell(inSize, hid)` (identical parameter set for
one layer of `nn.LSTM`): `wIh : (4*hid) × inSize`, `wHh : (4*hid) × hid`, and
the two bias vectors `bIh`, `bHh` of length `4*hid`.  Both the cell form and
the fused form carry both biases. -/
structure LSTMParams where
  wIh : ℕ → ℕ → ℚ
  wHh : ℕ → ℕ → ℚ
  bIh : ℕ → ℚ
  bHh : ℕ → ℚ

/-- The pre-activation gate stack `wIh·x + bIh + wHh·h + bHh` (rows
`0..4*hid`), batch-parallel. -/
def lstmGates (p : LSTMParams) (inSize hid : ℕ) (x h : Mat) : Mat :=
  fun b r =>
    (∑ c in Finset.range inSize, p.wIh r c * x b c) + p.bIh r +
      ((∑ c in Finset.range hid, p.wHh r c * h b c) + p.bHh r)

/-- The canonical LSTM step (PyTorch gate order `i, f, g, o` in chunks of
`hid` rows of the gate stack): `c' = f ⊙ c + i ⊙ g`, `h' = o ⊙ tanh(c')`;
`sig` and `tnh` are the external runtime's `sigmoid` and `tanh`. -/
def lstmCellStep (sig tnh : ℚ → ℚ) (p : LSTMParams) (inSize hid : ℕ) (x h c : Mat) :
    Mat × Mat :=
  let g := lstmGates p inSize hid x h
  let c2 : Mat := fun b j =>
    sig (g b (hid + j)) * c b j + sig (g b j) * tnh (g b (2 * hid + j))
  let h2 : Mat := fun b j => sig (g b (3 * hid + j)) * tnh (c2 b j)
  (h2, c2)

/-- Parameters of a `LanguageModel`: embedding table (token → vector), the two
stacked `nn.LSTMCell`s, and the shared logits projection. -/
structure LMParams where
  emb : ℕ → ℕ → ℚ
  lstm1 : LSTMParams
  lstm2 : LSTMParams
  logitsW : ℕ → ℕ → ℚ
  logitsB : ℕ → ℚ

/-- The per-step loop of `LanguageModel.forward` with dropout disabled
(evaluation mode, where `nn.Dropout` is the identity): at each step feed the
step input through cell 1, its new hidden state through cell 2, and record
cell 2's hidden state. -/
def lmLoop (sig tnh : ℚ → ℚ) (p1 p2 : LSTMParams) (embSize hid : ℕ) :
    List Mat → Mat × Mat → Mat × Mat → List Mat
  | [], _, _ => []
  | x :: xs, s1, s2 =>
    (lstmCellStep sig tnh p2 hid hid (lstmCellStep sig tnh p1 embSize hid x s1.1 s1.2).1
        s2.1 s2.2).1 ::
      lmLoop sig tnh p1 p2 embSize hid xs
        (lstmCellStep sig tnh p1 embSize hid x s1.1 s1.2)
        (lstmCellStep sig tnh p2 hid hid (lstmCellStep sig tnh p1 embSize hid x s1.1 s1.2).1
          s2.1 s2.2)

/-- The embedded input sequence: step `t` is the matrix of embedding vectors
of the step-`t` tokens of the batch. -/
def embedSeq (emb : ℕ → ℕ → ℚ) (inputs : ℕ → ℕ → ℕ) (seqLen : ℕ) : List Mat :=
  (List.range seqLen).map fun t => fun b e => emb (inputs b t) e

/-- The logits projection followed by the normalization `lsm` (the external
`F.log_softmax(·, dim=-1)`), applied to each (step, batch) row of the
collected hidden-state sequence; output index order here is (step, batch). -/
def projectOut (lsm : Vec → Vec) (logitsW : ℕ → ℕ → ℚ) (logitsB : ℕ → ℚ) (hid : ℕ)
    (hidSeq : List Mat) : ℕ → ℕ → Vec :=
  fun t b => lsm fun v =>
    (∑ j in Finset.range hid, logitsW v j * hidSeq.getD t (zerosM 0 0) b j) + logitsB v

/-- `LanguageModel.forward(inputs, initial_state)` in evaluation mode, from an
explicitly given pair of (hidden, cell) states for the two cells. -/
def lmForwardFrom (sig tnh : ℚ → ℚ) (lsm : Vec → Vec) (p : LMParams)
    (embSize hid batch seqLen : ℕ) (inputs : ℕ → ℕ → ℕ)
    (st1 st2 : Mat × Mat) : ℕ → ℕ → Vec :=
  projectOut lsm p.logitsW p.logitsB hid
    (lmLoop sig tnh p.lstm1 p.lstm2 embSize hid (embedSeq p.emb inputs seqLen) st1 st2)

/-- `LanguageModel.forward(inputs, initial_state)` in evaluation mode,
transcribed from the source: the `initial_state` argument is never read;
`h1, c1, h2, c2` are always created as `torch.zeros(batch_size, hidden_size)`;
then the step loop runs and the collected hidden states are projected and
normalized. -/
def lmForwardEval (sig tnh : ℚ → ℚ) (lsm : Vec → Vec) (p : LMParams)
    (embSize hid batch seqLen : ℕ) (inputs : ℕ → ℕ → ℕ)
    (initialState : Option ((Mat × Mat) × (Mat × Mat))) : ℕ → ℕ → Vec :=
  projectOut lsm p.logitsW p.logitsB hid
    (lmLoop sig tnh p.lstm1 p.lstm2 embSize hid (embedSeq p.emb inputs seqLen)
      (zerosM batch hid, zerosM batch hid) (zerosM batch hid, zerosM batch hid))

/-- Parameters of a `CudnnLanguageModel` with its hard-coded two stacked
layers: embedding, the per-layer `nn.LSTM` parameter sets `_l0` and `_l1`,
the `requires_grad` flags of the two hidden-to-hidden biases, and the logits
projection. -/
structure CudnnParams where
  emb : ℕ → ℕ → ℚ
  l0 : LSTMParams
  l1 : LSTMParams
  bHh0Trainable : Bool
  bHh1Trainable : Bool
  logitsW : ℕ → ℕ → ℚ
  logitsB : ℕ → ℚ

/-- One layer of the fused `nn.LSTM`: run the cell step along the whole input
sequence, collecting the hidden state of every step. -/
def lstmLayerSeq (sig tnh : ℚ → ℚ) (p : LSTMParams) (inSize hid : ℕ) :
    List Mat → Mat → Mat → List Mat
  | [], _, _ => []
  | x :: xs, h, c =>
    (lstmCellStep sig tnh p inSize hid x h c).1 ::
      lstmLayerSeq sig tnh p inSize hid xs (lstmCellStep sig tnh p inSize hid x h c).1
        (lstmCellStep sig tnh p inSize hid x h c).2

/-- The successful branch of `CudnnLanguageModel.forward` in evaluation mode
(dropout disabled, both the inter-layer dropout of `nn.LSTM` and
`self.dropout`): embed, run layer 0 then layer 1 from zero states, project
and normalize.  The source's `view(-1, hidden_size)` flattens the (batch,
step) grid row-wise before the projection; the projection and `log_softmax`
act on each row independently, so the output is indexed here as
(step, batch), matching `lmForwardEval`. -/
def cudnnRunEval (sig tnh : ℚ → ℚ) (lsm : Vec → Vec) (cp : CudnnParams)
    (embSize hid batch seqLen : ℕ) (inputs : ℕ → ℕ → ℕ) : ℕ → ℕ → Vec :=
  projectOut lsm cp.logitsW cp.logitsB hid
    (lstmLayerSeq sig tnh cp.l1 hid hid
      (lstmLayerSeq sig tnh cp.l0 embSize hid (embedSeq cp.emb inputs seqLen)
        (zerosM batch hid) (zerosM batch hid))
      (zerosM batch hid) (zerosM batch hid))

/-- `CudnnLanguageModel.forward(inputs, initial_state)`: when no initial
state is supplied, `hidden` is bound to `torch.zeros(num_layers, batch,
hidden_size)` pairs and the forward succeeds; when a state IS supplied, the
`if initial_state is None` branch is skipped, the local variable `hidden` is
never assigned, and `self.lstm(embs, hidden)` raises `UnboundLocalError` —
modelled as an error value. -/
def cudnnForwardEval (sig tnh : ℚ → ℚ) (lsm : Vec → Vec) (cp : CudnnParams)
    (embSize hid batch seqLen : ℕ) (inputs : ℕ → ℕ → ℕ)
    (initialState : Option ((Mat × Mat) × (Mat × Mat))) :
    Except String (ℕ → ℕ → Vec) :=
  match initialState with
  | none => Except.ok (cudnnRunEval sig tnh lsm cp embSize hid batch seqLen inputs)
  | some _ => Except.error "UnboundLocalError: local variable referenced before assignment"

/-- `convert_to_cudnn_lstm(model)`: deep-copies the embedding, the logits
projection and all four parameter tensors of each cell into the fused model's
layer-0 and layer-1 slots, then zeroes the two copied hidden-to-hidden biases
in place and clears their `requires_grad` flags. -/
def convertToCudnnLSTM (p : LMParams) : CudnnParams where
  emb := p.emb
  l0 := { wIh := p.lstm1.wIh, wHh := p.lstm1.wHh, bIh := p.lstm1.bIh, bHh := fun _ => 0 }
  l1 := { wIh := p.lstm2.wIh, wHh := p.lstm2.wHh, bIh := p.lstm2.bIh, bHh := fun _ => 0 }
  bHh0Trainable := false
  bHh1Trainable := false
  logitsW := p.logitsW
  logitsB := p.logitsB

/-- Layer-by-layer processing of the fused two-layer LSTM coincides with the
interleaved per-step two-cell loop (with identical parameters and start
states): the layer-1 computation at step `t` depends only on layer-0 outputs
up to `t`. -/
theorem lstmLayerSeq_eq_lmLoop (sig tnh : ℚ → ℚ) (p1 p2 : LSTMParams) (embSize hid : ℕ) :
    ∀ (xs : List Mat) (h1 c1 h2 c2 : Mat),
      lstmLayerSeq sig tnh p2 hid hid
          (lstmLayerSeq sig tnh p1 embSize hid xs h1 c1) h2 c2 =
        lmLoop sig tnh p1 p2 embSize hid xs (h1, c1) (h2, c2) := by
  intro xs
  induction xs with
  | nil => intro h1 c1 h2 c2; rfl
  | cons x xs ih =>
    intro h1 c1 h2 c2
    rw [lstmLayerSeq, lstmLayerSeq, lmLoop]
    rw [ih]

/-- C6: the sequence drivers zero-initialize.  (a) `LanguageModel.forward`
with no initial state runs the step loop from `torch.zeros(batch,
hidden_size)` hidden and cell states for both recurrent layers.  (b)
`CudnnLanguageModel.forward` with no initial state likewise succeeds, running
from zero states of shape (batch, hidden_size) per layer.  (c) Whenever the
Cudnn forward is asked to continue from a state without taking the
zero-default branch (any supplied state skips it), the unassigned local
`hidden` makes it fail fast with an error. -/
theorem zero_state_init_C6 (sig tnh : ℚ → ℚ) (lsm : Vec → Vec) (p : LMParams)
    (cp : CudnnParams) (embSize hid batch seqLen : ℕ) (inputs : ℕ → ℕ → ℕ) :
    lmForwardEval sig tnh lsm p embSize hid batch seqLen inputs none =
      lmForwardFrom sig tnh lsm p embSize hid batch seqLen inputs
        (zerosM batch hid, zerosM batch hid) (zerosM batch hid, zerosM batch hid) ∧
    cudnnForwardEval sig tnh lsm cp embSize hid batch seqLen inputs none =
      Except.ok (cudnnRunEval sig tnh lsm cp embSize hid batch seqLen inputs) ∧
    ∀ st, cudnnForwardEval sig tnh lsm cp embSize hid batch seqLen inputs (some st) =
      Except.error "UnboundLocalError: local variable referenced before assignment" :=
  ⟨rfl, rfl, fun _ => rfl⟩

/-- A concrete two-cell model whose second cell has a nonzero hidden-to-hidden
bias (as any freshly constructed `nn.LSTMCell` has, almost surely): all other
parameters zero, logits weight row 0 reads the hidden state. -/
def cexLM : LMParams where
  emb := fun _ _ => 0
  lstm1 := { wIh := fun _ _ => 0, wHh := fun _ _ => 0, bIh := fun _ => 0, bHh := fun _ => 0 }
  lstm2 := { wIh := fun _ _ => 0, wHh := fun _ _ => 0, bIh := fun _ => 0, bHh := fun _ => 1 }
  logitsW := fun v _ => if v = 0 then 1 else 0
  logitsB := fun _ => 0

/-- Counterexample to C5 as stated: on `cexLM` (embedding size 1, hidden size
1, batch 1, one step, dropout disabled, zero-initialized state, with the
runtime activations instantiated to computable maps), the original two-cell
forward and the forward of the converted fused model differ at (step 0,
batch 0, vocabulary entry 0): the conversion zeroed the copied
hidden-to-hidden bias of cell 2, which the original still adds to its gate
stack.  The outputs are not identical. -/
theorem convert_C5_cex :
    lmForwardEval (fun q => q) (fun q => q) (fun v => v) cexLM 1 1 1 1 (fun _ _ => 0) none 0 0 0
        = 1 ∧
    cudnnRunEval (fun q => q) (fun q => q) (fun v => v) (convertToCudnnLSTM cexLM)
        1 1 1 1 (fun _ _ => 0) 0 0 0 = 0 := by
  constructor
  · show projectOut _ _ _ _ _ 0 0 0 = 1
    simp [projectOut, lmLoop, lmForwardEval, embedSeq, lstmCellStep, lstmGates, cexLM, zerosM,
      List.range_succ]
  · show projectOut _ _ _ _ _ 0 0 0 = 0
    simp [projectOut, lstmLayerSeq, cudnnRunEval, convertToCudnnLSTM, embedSeq, lstmCellStep,
      lstmGates, cexLM, zerosM, List.range_succ]

/-- C5 amended: for EVERY two-cell model, the conversion utility copies every
parameter into the fused model, except that the two copied hidden-to-hidden
biases are set to zero and marked non-trainable (first conjunct, with no
proviso); and — provided the source cells' hidden-to-hidden biases are zero,
the only case the zeroing does not destroy — the fused model's forward output
with dropout disabled on the same input batch and zero-initialized state is
identical to the original two-cell model's output (second conjunct).
Without that proviso the outputs differ: see the counterexample. -/
theorem convert_C5_amended (sig tnh : ℚ → ℚ) (lsm : Vec → Vec) (p : LMParams)
    (embSize hid batch seqLen : ℕ) (inputs : ℕ → ℕ → ℕ) :
    ((convertToCudnnLSTM p).emb = p.emb ∧
      (convertToCudnnLSTM p).l0.wIh = p.lstm1.wIh ∧
      (convertToCudnnLSTM p).l0.wHh = p.lstm1.wHh ∧
      (convertToCudnnLSTM p).l0.bIh = p.lstm1.bIh ∧
      (convertToCudnnLSTM p).l0.bHh = (fun _ => 0) ∧
      (convertToCudnnLSTM p).bHh0Trainable = false ∧
      (convertToCudnnLSTM p).l1.wIh = p.lstm2.wIh ∧
      (convertToCudnnLSTM p).l1.wHh = p.lstm2.wHh ∧
      (convertToCudnnLSTM p).l1.bIh = p.lstm2.bIh ∧
      (convertToCudnnLSTM p).l1.bHh = (fun _ => 0) ∧
      (convertToCudnnLSTM p).bHh1Trainable = false ∧
      (convertToCudnnLSTM p).logitsW = p.logitsW ∧
      (convertToCudnnLSTM p).logitsB = p.logitsB) ∧
    ((p.lstm1.bHh = fun _ => 0) → (p.lstm2.bHh = fun _ => 0) →
      cudnnRunEval sig tnh lsm (convertToCudnnLSTM p) embSize hid batch seqLen inputs =
        lmForwardEval sig tnh lsm p embSize hid batch seqLen inputs none) := by
  refine ⟨⟨rfl, rfl, rfl, rfl, rfl, rfl, rfl, rfl, rfl, rfl, rfl, rfl, rfl⟩, ?_⟩
  intro hb1 hb2
  have hl0 : (convertToCudnnLSTM p).l0 = p.lstm1 := by
    rw [show (convertToCudnnLSTM p).l0 =
        LSTMParams.mk p.lstm1.wIh p.lstm1.wHh p.lstm1.bIh (fun _ => 0) from rfl, ← hb1]
  have hl1 : (convertToCudnnLSTM p).l1 = p.lstm2 := by
    rw [show (convertToCudnnLSTM p).l1 =
        LSTMParams.mk p.lstm2.wIh p.lstm2.wHh p.lstm2.bIh (fun _ => 0) from rfl, ← hb2]
  unfold cudnnRunEval lmForwardEval
  rw [hl0, hl1, lstmLayerSeq_eq_lmLoop]
  rfl

/-- A two-cell model with every parameter zero (so its hidden-to-hidden
biases are zero in particular). -/
def zeroLMParams : LMParams where
  emb := fun _ _ => 0
  lstm1 := { wIh := fun _ _ => 0, wHh := fun _ _ => 0, bIh := fun _ => 0, bHh := fun _ => 0 }
  lstm2 := { wIh := fun _ _ => 0, wHh := fun _ _ => 0, bIh := fun _ => 0, bHh := fun _ => 0 }
  logitsW := fun _ _ => 0
  logitsB := fun _ => 0

/-- Witness for the amended C5 at `zeroLMParams` (embedding size 1, hidden
size 1, batch 1, one step): the parameter-identity part, and the output
equality with the zero-bias provisos discharged at this instance. -/
theorem convert_C5_amended_w :
    ((convertToCudnnLSTM zeroLMParams).emb = zeroLMParams.emb ∧
      (convertToCudnnLSTM zeroLMParams).l0.wIh = zeroLMParams.lstm1.wIh ∧
      (convertToCudnnLSTM zeroLMParams).l0.wHh = zeroLMParams.lstm1.wHh ∧
      (convertToCudnnLSTM zeroLMParams).l0.bIh = zeroLMParams.lstm1.bIh ∧
      (convertToCudnnLSTM zeroLMParams).l0.bHh = (fun _ => 0) ∧
      (convertToCudnnLSTM zeroLMParams).bHh0Trainable = false ∧
      (convertToCudnnLSTM zeroLMParams).l1.wIh = zeroLMParams.lstm2.wIh ∧
      (convertToCudnnLSTM zeroLMParams).l1.wHh = zeroLMParams.lstm2.wHh ∧
      (convertToCudnnLSTM zeroLMParams).l1.bIh = zeroLMParams.lstm2.bIh ∧
      (convertToCudnnLSTM zeroLMParams).l1.bHh = (fun _ => 0) ∧
      (convertToCudnnLSTM zeroLMParams).bHh1Trainable = false ∧
      (convertToCudnnLSTM zeroLMParams).logitsW = zeroLMParams.logitsW ∧
      (convertToCudnnLSTM zeroLMParams).logitsB = zeroLMParams.logitsB) ∧
    cudnnRunEval (fun q => q) (fun q => q) (fun v => v) (convertToCudnnLSTM zeroLMParams)
        1 1 1 1 (fun _ _ => 0) =
      lmForwardEval (fun q => q) (fun q => q) (fun v => v) zeroLMParams
        1 1 1 1 (fun _ _ => 0) none :=
  ⟨(convert_C5_amended (fun q => q) (fun q => q) (fun v => v) zeroLMParams 1 1 1 1
      (fun _ _ => 0)).1,
    (convert_C5_amended (fun q => q) (fun q => q) (fun v => v) zeroLMParams 1 1 1 1
      (fun _ _ => 0)).2 rfl rfl⟩
